import Mathlib

/-! Linear memory of the evmcc JIT: `evmcc/Memory.cpp`

A shallow embedding of the runtime bridge (`mem_resize`,
`evmccrt_memory_require`, `evmccrt_memory_size`) and of the code that
`Memory::createStoreFunc`, `Memory::loadWord` and `Memory::getSize` emit.

Machine integers are natural numbers, reduced `% 2 ^ 64` or `% 2 ^ 256`
wherever the C++ or LLVM operation works at that width.  Bytes are natural
numbers below 256.  A raw pointer is the natural number of its address.
-/

namespace evmcc

/-! ## Data model -/

/-- Relocation policy of the byte vector: `relocate base oldSize newSize` is the
address of the storage after `std::vector::resize` took it from `oldSize` to
`newSize` bytes.  The allocator is not part of the program, so every definition
below takes the policy as an argument and every theorem holds for all of them. -/
abbrev Relocate := Nat → Nat → Nat → Nat

/-- The allocator that never moves the storage. -/
def keepBase : Relocate := fun base _ _ => base

/-- An allocator that places the resized storage 16 bytes past the old block. -/
def bumpBase : Relocate := fun base oldSize _ => base + oldSize + 16

/-- Process-wide state touched by the memory code.

* `memory`  : the bytes of `Runtime::getMemory()`, a `std::vector<uint8_t>`;
              `memory.size()` is `memory.length`.
* `base`    : `Runtime::getMemory().data()`.
* `memData` : the module global `mem.data` (a byte pointer).
* `memSize` : the module global `mem.size` (an `i256`). -/
structure MemState where
  memory : List Nat
  base : Nat
  memData : Nat
  memSize : Nat
deriving DecidableEq, Repr

/-- State before any compiled code ran: the vector is empty, `mem.size` is
initialised to `getIntN(256, 0)` and `mem.data` to `UndefValue`, here the
arbitrary address `undefData`. -/
def initialState (base undefData : Nat) : MemState :=
  { memory := [], base := base, memData := undefData, memSize := 0 }

/-- The cached slots mirror the vector: `mem.size == memory.size()` and
`mem.data == memory.data()`. -/
def Mirrored (st : MemState) : Prop :=
  st.memSize = st.memory.length ∧ st.memData = st.base

instance (st : MemState) : Decidable (Mirrored st) := by
  unfold Mirrored; infer_instance

/-- Semantics of `std::vector<uint8_t>::resize(n)`: keep the first `n` elements
and append value-initialised (zero) bytes up to length `n`. -/
def vectorResize (v : List Nat) (n : Nat) : List Nat :=
  v.take n ++ List.replicate (n - v.length) 0

/-- Call `Runtime::getMemory().resize(n)` on the state: new contents and a
storage address chosen by the allocator. -/
def resizeMemory (relocate : Relocate) (st : MemState) (n : Nat) : MemState :=
  { st with memory := vectorResize st.memory n,
            base := relocate st.base st.memory.length n }

/-! ## Runtime bridge (the functions with C linkage) -/

/-- Embedding of `mem_resize(i256* _size)`; `sizeWord` is the 256-bit value
behind the pointer.  `_size->a` keeps its low 64 bits.  Returns
`memory.data()` and the new state. -/
def mem_resize (relocate : Relocate) (st : MemState) (sizeWord : Nat) : Nat × MemState :=
  let size := sizeWord % 2 ^ 64
  let st1 := resizeMemory relocate st size
  (st1.base, st1)

/-- Value of the local `requiredSize` in `evmccrt_memory_require`:
`(_index / 32 + 1) * 32` in `uint64_t` arithmetic. -/
def requiredSize (_index : Nat) : Nat :=
  (_index / 32 + 1) * 32 % 2 ^ 64

/-- Embedding of `evmccrt_memory_require(uint64_t _index)`: resize only when
`memory.size() < requiredSize`, return `memory.data()` and the new state. -/
def evmccrt_memory_require (relocate : Relocate) (st : MemState) (_index : Nat) :
    Nat × MemState :=
  if st.memory.length < requiredSize _index then
    let st1 := resizeMemory relocate st (requiredSize _index)
    (st1.base, st1)
  else
    (st.base, st)

/-- A run of `evmccrt_memory_require` calls, one per index of `is`, in order. -/
def requireAll (relocate : Relocate) (st : MemState) (is : List Nat) : MemState :=
  is.foldl (fun s i => (evmccrt_memory_require relocate s i).2) st

/-- Embedding of `evmccrt_memory_size()`: `memory.size() / 32` as `uint64_t`. -/
def evmccrt_memory_size (st : MemState) : Nat :=
  st.memory.length / 32 % 2 ^ 64

/-! ## Raw memory access of generated code -/

/-- Store `bytes` through the raw pointer `ptr`.  The access is defined only
when `[ptr, ptr + bytes.length)` lies inside the vector's live storage
`[base, base + memory.size())`; otherwise the behaviour is undefined (`none`). -/
def writeBytes (st : MemState) (ptr : Nat) (bytes : List Nat) : Option MemState :=
  if st.base ≤ ptr ∧ ptr + bytes.length ≤ st.base + st.memory.length then
    let off := ptr - st.base
    some { st with memory :=
      st.memory.take off ++ bytes ++ st.memory.drop (off + bytes.length) }
  else
    none

/-- Load `n` bytes through the raw pointer `ptr`; `none` when the range is not
inside the vector's live storage. -/
def readBytes (st : MemState) (ptr n : Nat) : Option (List Nat) :=
  if st.base ≤ ptr ∧ ptr + n ≤ st.base + st.memory.length then
    some ((st.memory.drop (ptr - st.base)).take n)
  else
    none

/-- Little-endian bytes of a 256-bit word, the layout of an `i256` store. -/
def wordToBytes (w : Nat) : List Nat :=
  (List.range 32).map (fun k => w / 256 ^ k % 256)

/-- Little-endian value of a byte string, the result of an `i256` load. -/
def bytesToWord (bs : List Nat) : Nat :=
  bs.foldr (fun b acc => b + 256 * acc) 0

/-! ## `Memory::createStoreFunc` -/

/-- Modelled from the spec: `Type.h` is not part of the sources; the two value
types handed to `createStoreFunc` are the full word `Type::i256` (32 bytes) and
the single byte `Type::Byte`. -/
inductive ValueType where
  | i256
  | Byte
deriving DecidableEq, Repr

/-- Width in bits, `_valueType->getPrimitiveSizeInBits()`. -/
def ValueType.getPrimitiveSizeInBits : ValueType → Nat
  | .i256 => 256
  | .Byte => 8

/-- Bytes written for `value` at the given type. -/
def ValueType.encode : ValueType → Nat → List Nat
  | .i256, value => wordToBytes value
  | .Byte, value => [value % 256]

/-- Basic blocks of the generated routine, plus the return. -/
inductive StoreBlock where
  | check
  | resize
  | store
  | ret
deriving DecidableEq, Repr

/-- Value of `sizeRequired`: `index + valueSize` as an `i256` addition. -/
def sizeRequired (vt : ValueType) (index : Nat) : Nat :=
  (index + vt.getPrimitiveSizeInBits / 8) % 2 ^ 256

/-- Value of `resizeNeeded`: `CreateICmpULE(sizeRequired, size)` with `size`
loaded from `mem.size`. -/
def resizeNeeded (vt : ValueType) (st : MemState) (index : Nat) : Bool :=
  decide (sizeRequired vt index ≤ st.memSize)

/-- Block `check`: `CreateCondBr(resizeNeeded, resizeBB, storeBB)`. -/
def checkBB (vt : ValueType) (st : MemState) (index : Nat) : StoreBlock :=
  if resizeNeeded vt st index then .resize else .store

/-- Block `resize`: store `sizeRequired` to `mem.size`, call
`mem_resize(&mem.size)`, store the returned pointer to `mem.data`. -/
def resizeBB (relocate : Relocate) (vt : ValueType) (st : MemState) (index : Nat) :
    MemState :=
  let st1 := { st with memSize := sizeRequired vt index }
  let r := mem_resize relocate st1 st1.memSize
  { r.2 with memData := r.1 }

/-- Address computed in block `store`: `data` reloaded from `mem.data`, then
`CreateGEP(data, index)` on a 64-bit target. -/
def storePtr (st : MemState) (index : Nat) : Nat :=
  (st.memData + index % 2 ^ 64) % 2 ^ 64

/-- Block `store`: write `value` through `storePtr`, then return. -/
def storeBB (vt : ValueType) (st : MemState) (index value : Nat) : Option MemState :=
  writeBytes st (storePtr st index) (vt.encode value)

/-- State in which block `store` is entered. -/
def stateAtStore (relocate : Relocate) (vt : ValueType) (st : MemState) (index : Nat) :
    MemState :=
  match checkBB vt st index with
  | .resize => resizeBB relocate vt st index
  | _ => st

/-- The routine built by `createStoreFunc(_valueType, _module)`, run on
`(index, value)`. -/
def createStoreFunc (relocate : Relocate) (vt : ValueType) (st : MemState)
    (index value : Nat) : Option MemState :=
  storeBB vt (stateAtStore relocate vt st index) index value

/-- The routine `store` (`m_storeWord`). -/
def store (relocate : Relocate) (st : MemState) (index value : Nat) : Option MemState :=
  createStoreFunc relocate .i256 st index value

/-- The routine `store8` (`m_storeByte`). -/
def store8 (relocate : Relocate) (st : MemState) (index value : Nat) : Option MemState :=
  createStoreFunc relocate .Byte st index value

/-! ## `Memory::loadWord` and `Memory::getSize` -/

/-- Value `mem.index`: `CreateTrunc(_addr, i64)`. -/
def memIndex (_addr : Nat) : Nat := _addr % 2 ^ 64

/-- Value `mem.index.31`: the `i64` addition `index + 31`. -/
def memIndex31 (_addr : Nat) : Nat := (memIndex _addr + 31) % 2 ^ 64

/-- Code emitted by `loadWord(_addr)`: call `evmccrt_memory_require(index31)`,
then load an `i256` at `base + index`.  Returns the loaded word (`none` for a
read outside the vector) and the state after the call. -/
def loadWord (relocate : Relocate) (st : MemState) (_addr : Nat) : Option Nat × MemState :=
  let r := evmccrt_memory_require relocate st (memIndex31 _addr)
  let ptr := (r.1 + memIndex _addr) % 2 ^ 64
  ((readBytes r.2 ptr 32).map bytesToWord, r.2)

/-- Code emitted by `getSize()`: call `evmccrt_memory_size`, then `CreateZExt`
of the `i64` result to `i256`. -/
def getSize (st : MemState) : Nat :=
  evmccrt_memory_size st % 2 ^ 64 % 2 ^ 256

/-- A word store followed by a load at the same address. -/
def storeThenLoad (relocate : Relocate) (st : MemState) (index value : Nat) : Option Nat :=
  (store relocate st index value).bind (fun st1 => (loadWord relocate st1 index).1)

/-! ## Control flow of the generated store routine -/

/-- Edges of the control-flow graph, read off the terminators:
`CreateCondBr(resizeNeeded, resizeBB, storeBB)` ends `check`,
`CreateBr(storeBB)` ends `resize`, `CreateRetVoid()` ends `store`. -/
def StoreBlock.successors : StoreBlock → List StoreBlock
  | .check => [.resize, .store]
  | .resize => [.store]
  | .store => [.ret]
  | .ret => []

/-- Position of a block in the emitted order, counted from the return. -/
def StoreBlock.rank : StoreBlock → Nat
  | .check => 3
  | .resize => 2
  | .store => 1
  | .ret => 0

/-- Configuration of a running store routine.

* `block` : the block about to run (`ret` once the routine has returned).
* `st`    : the state, `none` after a write outside the vector.
* `trace` : the blocks already run, oldest first.
* `wrote` : for every executed `CreateStore(value, ptr)`, the value `data`
            the pointer was computed from. -/
structure StoreConfig where
  block : StoreBlock
  st : Option MemState
  trace : List StoreBlock
  wrote : List Nat
deriving DecidableEq, Repr

/-- Entry of the routine: control is at the first block, `check`. -/
def StoreConfig.entry (st : MemState) : StoreConfig :=
  { block := .check, st := some st, trace := [], wrote := [] }

/-- Run the block the configuration points at. -/
def storeStep (relocate : Relocate) (vt : ValueType) (index value : Nat)
    (c : StoreConfig) : StoreConfig :=
  match c.block, c.st with
  | .check, some st =>
    { block := checkBB vt st index, st := some st,
      trace := c.trace ++ [.check], wrote := c.wrote }
  | .resize, some st =>
    { block := .store, st := some (resizeBB relocate vt st index),
      trace := c.trace ++ [.resize], wrote := c.wrote }
  | .store, some st =>
    { block := .ret, st := storeBB vt st index value,
      trace := c.trace ++ [.store], wrote := c.wrote ++ [st.memData] }
  | _, _ => c

/-- Run `fuel` blocks of the routine. -/
def runStore (relocate : Relocate) (vt : ValueType) (index value : Nat) :
    Nat → StoreConfig → StoreConfig
  | 0, c => c
  | fuel + 1, c => runStore relocate vt index value fuel (storeStep relocate vt index value c)

/-! ## `evmccrt_memory_dump` -/

/-- What `evmccrt_memory_dump` does, in order.

* `header words b e` : the two header lines, printing `evmccrt_memory_size()`,
                       `_begin` and the normalised `_end`.
* `row i`            : the start of a row, `'\n' << i << ":  "`.
* `byte i b`         : the read `Runtime::getMemory()[i]` and its print; `b` is
                       `none` when `i` is not below `memory.size()`, a read whose
                       behaviour is undefined and after which nothing follows.
* `endl`             : the final `std::endl`. -/
inductive DumpEvent where
  | header (words _begin _end : Nat)
  | row (i : Nat)
  | byte (i : Nat) (b : Option Nat)
  | endl
deriving DecidableEq, Repr

/-- The loop `for (size_t i = _begin; i < _end; i++)` from the value `i` on,
followed by the final `std::endl`; `_begin` is the rounded start.  The vector is
indexed without a bound check: a read at `i` not below `memory.size()` has
undefined behaviour, and the events stop at that read. -/
def dumpLoop (memory : List Nat) (_begin _end i : Nat) : List DumpEvent :=
  if i < _end then
    (if (i - _begin) % 16 = 0 then [DumpEvent.row i] else [])
      ++ (match memory[i]? with
          | some v => DumpEvent.byte i (some v) :: dumpLoop memory _begin _end (i + 1)
          | none => [DumpEvent.byte i none])
  else
    [DumpEvent.endl]
termination_by _end - i

/-- Value of `_end` after `if (_end == 0) _end = Runtime::getMemory().size();`. -/
def dumpEnd (st : MemState) (_end : Nat) : Nat :=
  if _end = 0 then st.memory.length else _end

/-- Embedding of `evmccrt_memory_dump(uint64_t _begin, uint64_t _end)`: the
events it produces and the state, which the body never writes.  No operation of
the body wraps for 64-bit arguments. -/
def evmccrt_memory_dump (st : MemState) (_begin _end : Nat) : List DumpEvent × MemState :=
  let end1 := dumpEnd st _end
  let header := DumpEvent.header (evmccrt_memory_size st) _begin end1
  if end1 ≤ _begin then
    ([header], st)
  else
    let begin1 := _begin / 16 * 16
    (header :: dumpLoop st.memory begin1 end1 begin1, st)

/-- Offsets of the indexed reads among the events, in order. -/
def dumpReads (events : List DumpEvent) : List Nat :=
  events.filterMap (fun ev => match ev with
    | .byte i _ => some i
    | _ => none)

/-- Offsets at which a row starts, in order. -/
def dumpRows (events : List DumpEvent) : List Nat :=
  events.filterMap (fun ev => match ev with
    | .row i => some i
    | _ => none)

/-! ## Auxiliary facts -/

theorem vectorResize_length (v : List Nat) (n : Nat) : (vectorResize v n).length = n := by
  simp only [vectorResize, List.length_append, List.length_take, List.length_replicate]
  omega

theorem vectorResize_of_le {v : List Nat} {n : Nat} (h : v.length ≤ n) :
    vectorResize v n = v ++ List.replicate (n - v.length) 0 := by
  simp [vectorResize, List.take_of_length_le h]

theorem resizeMemory_length (relocate : Relocate) (st : MemState) (n : Nat) :
    (resizeMemory relocate st n).memory.length = n := by
  simp [resizeMemory, vectorResize_length]

theorem mem_resize_length (relocate : Relocate) (st : MemState) (sizeWord : Nat) :
    (mem_resize relocate st sizeWord).2.memory.length = sizeWord % 2 ^ 64 := by
  simp [mem_resize, resizeMemory_length]

theorem require_length (relocate : Relocate) (st : MemState) (i : Nat) :
    (evmccrt_memory_require relocate st i).2.memory.length
      = max st.memory.length (requiredSize i) := by
  unfold evmccrt_memory_require
  split
  · rename_i h
    simp only [resizeMemory_length]
    omega
  · rename_i h
    simp only
    omega

theorem requiredSize_exact {i : Nat} (h : i < 2 ^ 64 - 32) :
    requiredSize i = (i / 32 + 1) * 32 := by
  unfold requiredSize
  apply Nat.mod_eq_of_lt
  omega

theorem require_returns_base (relocate : Relocate) (st : MemState) (i : Nat) :
    (evmccrt_memory_require relocate st i).1 = (evmccrt_memory_require relocate st i).2.base := by
  unfold evmccrt_memory_require
  split <;> rfl


/-! ## The check of the store routine -/

/-- C1, the code as written: the branch of block `check` is the reverse of the
claim.  Block `resize` is entered exactly when `sizeRequired <= mem.size`, and
block `store` directly exactly when `sizeRequired > mem.size`.  On the first
byte store, with `mem.size = 0` and `sizeRequired = 1`, control goes straight to
`store`; for a word store at index 0 with `mem.size = 32` it goes to `resize`. -/
theorem checkBB_branches_on_required_le_size :
    (∀ (vt : ValueType) (st : MemState) (index : Nat),
      (checkBB vt st index = .resize ↔ sizeRequired vt index ≤ st.memSize) ∧
      (checkBB vt st index = .store ↔ st.memSize < sizeRequired vt index)) ∧
    sizeRequired .Byte 0 = 1 ∧ (initialState 0 0).memSize = 0 ∧
    checkBB .Byte (initialState 0 0) 0 = .store ∧
    sizeRequired .i256 0 = 32 ∧
    checkBB .i256 { memory := List.replicate 32 0, base := 0, memData := 0, memSize := 32 } 0
      = .resize := by
  refine ⟨?_, by decide, by decide, by decide, by decide, by decide⟩
  intro vt st index
  unfold checkBB resizeNeeded
  by_cases h : sizeRequired vt index ≤ st.memSize
  · simp [h]
  · simp [h]
    omega

/-- C2, the code at the failing input: on the empty buffer `store8(0, 0xAB)`
does not pass through `resize`, so block `store` is entered with the vector
still empty and the cached slots untouched, and the one-byte write through
`mem.data + 0` falls outside the vector; the buffer never reaches size 1. -/
theorem store8_on_empty_buffer_writes_out_of_range (relocate : Relocate)
    (base undefData : Nat) :
    checkBB .Byte (initialState base undefData) 0 = .store ∧
    stateAtStore relocate .Byte (initialState base undefData) 0
      = initialState base undefData ∧
    (stateAtStore relocate .Byte (initialState base undefData) 0).memory.length = 0 ∧
    store8 relocate (initialState base undefData) 0 0xAB = none := by
  have hc : checkBB .Byte (initialState base undefData) 0 = .store := by
    simp [checkBB, resizeNeeded, sizeRequired, initialState,
      ValueType.getPrimitiveSizeInBits]
  have hs : stateAtStore relocate .Byte (initialState base undefData) 0
      = initialState base undefData := by
    simp [stateAtStore, hc]
  refine ⟨hc, hs, ?_, ?_⟩
  · rw [hs]; rfl
  · simp only [store8, createStoreFunc, hs, storeBB, writeBytes]
    simp [initialState, ValueType.encode]
    omega

/-- C3, the code at the failing input: on the empty buffer the word routine
`store(0, p)` skips `resize` as well (`32 <= 0` is false) and its 32-byte write
is outside the vector, for every word `p`; no later load returns `p`. -/
theorem store_word_on_empty_buffer_writes_out_of_range (relocate : Relocate)
    (base undefData p : Nat) :
    checkBB .i256 (initialState base undefData) 0 = .store ∧
    store relocate (initialState base undefData) 0 p = none ∧
    storeThenLoad relocate (initialState base undefData) 0 p = none := by
  have hc : checkBB .i256 (initialState base undefData) 0 = .store := by
    simp [checkBB, resizeNeeded, sizeRequired, initialState,
      ValueType.getPrimitiveSizeInBits]
  have hs : store relocate (initialState base undefData) 0 p = none := by
    simp only [store, createStoreFunc, stateAtStore, hc, storeBB, writeBytes]
    simp [initialState, ValueType.encode, wordToBytes]
    omega
  refine ⟨hc, hs, ?_⟩
  simp [storeThenLoad, hs]

/-! ## `evmccrt_memory_require` and the load sequence -/

/-- C4 as stated fails: for the 64-bit index `2 ^ 64 - 1` the product
`(_index / 32 + 1) * 32` wraps to 0 in `uint64_t`, nothing is resized, and the
empty buffer stays empty, below the exact value `2 ^ 64`. -/
theorem require_top_index_leaves_buffer_empty :
    2 ^ 64 - 1 < 2 ^ 64 ∧
    requiredSize (2 ^ 64 - 1) = 0 ∧
    (evmccrt_memory_require keepBase (initialState 0 0) (2 ^ 64 - 1)).2.memory.length = 0 ∧
    ¬ ((2 ^ 64 - 1) / 32 + 1) * 32
        ≤ (evmccrt_memory_require keepBase (initialState 0 0) (2 ^ 64 - 1)).2.memory.length := by
  decide

/-- C4 amended: for every index `i < 2 ^ 64 - 32` and every buffer state, after
`evmccrt_memory_require(i)` the buffer has at least `(i / 32 + 1) * 32` bytes
(exact natural number), and exactly that many when it was empty before. -/
theorem require_size_at_least_word_bound (relocate : Relocate) (st : MemState) (i : Nat)
    (hi : i < 2 ^ 64 - 32) :
    (i / 32 + 1) * 32 ≤ (evmccrt_memory_require relocate st i).2.memory.length ∧
    (st.memory = [] →
      (evmccrt_memory_require relocate st i).2.memory.length = (i / 32 + 1) * 32) := by
  rw [require_length, requiredSize_exact hi]
  refine ⟨by omega, ?_⟩
  intro h
  simp [h]

/-- Witness for C4 amended: on the empty buffer index 31 gives size exactly 32
and index 32 gives size exactly 64. -/
theorem require_size_at_least_word_bound_witness :
    (31 < 2 ^ 64 - 32 ∧
      (evmccrt_memory_require keepBase (initialState 0 0) 31).2.memory.length = 32) ∧
    (32 < 2 ^ 64 - 32 ∧
      (evmccrt_memory_require keepBase (initialState 0 0) 32).2.memory.length = 64) :=
  ⟨⟨by decide,
    (require_size_at_least_word_bound keepBase (initialState 0 0) 31 (by decide)).2 rfl⟩,
   ⟨by decide,
    (require_size_at_least_word_bound keepBase (initialState 0 0) 32 (by decide)).2 rfl⟩⟩

/-- C5 as stated fails: for the address `2 ^ 64 - 1` the sum `index + 31` wraps
to 30, `evmccrt_memory_require(30)` makes the empty buffer 32 bytes long, which
is less than `index + 32`, and the word read at `base + index` is outside it. -/
theorem loadWord_top_address_reads_outside_buffer :
    memIndex (2 ^ 64 - 1) = 2 ^ 64 - 1 ∧
    memIndex31 (2 ^ 64 - 1) = 30 ∧
    (evmccrt_memory_require keepBase (initialState 0 0)
      (memIndex31 (2 ^ 64 - 1))).2.memory.length = 32 ∧
    ¬ memIndex (2 ^ 64 - 1) + 32
        ≤ (evmccrt_memory_require keepBase (initialState 0 0)
            (memIndex31 (2 ^ 64 - 1))).2.memory.length ∧
    (loadWord keepBase (initialState 0 0) (2 ^ 64 - 1)).1 = none := by
  decide

/-- C5 amended: for every 256-bit address whose truncated index is below
`2 ^ 64 - 63` and every buffer state, `evmccrt_memory_require(index + 31)`
returns the buffer's base and leaves at least `index + 32` bytes, so offsets
`[index, index + 32)` are inside the buffer; when the buffer lies inside the
64-bit address space the load emitted by `loadWord` reads exactly those bytes
of the vector. -/
theorem loadWord_range_inside_buffer (relocate : Relocate) (st : MemState) (_addr : Nat)
    (hi : memIndex _addr < 2 ^ 64 - 63) :
    (evmccrt_memory_require relocate st (memIndex31 _addr)).1
      = (evmccrt_memory_require relocate st (memIndex31 _addr)).2.base ∧
    memIndex _addr + 32
      ≤ (evmccrt_memory_require relocate st (memIndex31 _addr)).2.memory.length ∧
    ((evmccrt_memory_require relocate st (memIndex31 _addr)).2.base
        + (evmccrt_memory_require relocate st (memIndex31 _addr)).2.memory.length ≤ 2 ^ 64 →
      (loadWord relocate st _addr).1
        = some (bytesToWord
            (((evmccrt_memory_require relocate st (memIndex31 _addr)).2.memory.drop
              (memIndex _addr)).take 32))) := by
  have h31 : memIndex31 _addr = memIndex _addr + 31 := by
    unfold memIndex31
    apply Nat.mod_eq_of_lt
    omega
  have hlen : memIndex _addr + 32
      ≤ (evmccrt_memory_require relocate st (memIndex31 _addr)).2.memory.length := by
    rw [require_length, h31, requiredSize_exact (by omega)]
    omega
  refine ⟨require_returns_base relocate st _, hlen, ?_⟩
  intro hsp
  unfold loadWord
  simp only [require_returns_base relocate st (memIndex31 _addr)]
  generalize (evmccrt_memory_require relocate st (memIndex31 _addr)).2 = st1 at hlen hsp ⊢
  have hp : (st1.base + memIndex _addr) % 2 ^ 64 = st1.base + memIndex _addr := by
    apply Nat.mod_eq_of_lt
    omega
  rw [hp]
  unfold readBytes
  rw [if_pos ⟨by omega, by omega⟩]
  simp

/-- Witness for C5 amended: a load at address 0 on the empty buffer. -/
theorem loadWord_range_inside_buffer_witness :
    memIndex 0 < 2 ^ 64 - 63 ∧
    memIndex 0 + 32
      ≤ (evmccrt_memory_require keepBase (initialState 0 0) (memIndex31 0)).2.memory.length :=
  ⟨by decide, (loadWord_range_inside_buffer keepBase (initialState 0 0) 0 (by decide)).2.1⟩

/-- C6, the code at the failing input: for `_index = 2 ^ 64 - 32` the local
`requiredSize` wraps to 0, the call resizes nothing and returns with the empty
buffer still empty, so the memory does not contain `_index + 1` bytes. -/
theorem require_wraps_below_documented_size (relocate : Relocate) (base undefData : Nat) :
    2 ^ 64 - 32 < 2 ^ 64 ∧
    requiredSize (2 ^ 64 - 32) = 0 ∧
    (evmccrt_memory_require relocate (initialState base undefData) (2 ^ 64 - 32)).2
      = initialState base undefData ∧
    ¬ 2 ^ 64 - 32
        < (evmccrt_memory_require relocate (initialState base undefData)
            (2 ^ 64 - 32)).2.memory.length := by
  have hr : requiredSize (2 ^ 64 - 32) = 0 := by decide
  have hs : (evmccrt_memory_require relocate (initialState base undefData) (2 ^ 64 - 32)).2
      = initialState base undefData := by
    unfold evmccrt_memory_require
    rw [hr, if_neg (Nat.not_lt_zero _)]
  refine ⟨by decide, hr, hs, ?_⟩
  rw [hs]
  simp [initialState]

/-! ## Growth, the cached mirror, size in words, zero fill -/

theorem requireAll_length_ge (relocate : Relocate) (is : List Nat) (st : MemState) :
    st.memory.length ≤ (requireAll relocate st is).memory.length := by
  induction is generalizing st with
  | nil => simp [requireAll]
  | cons i rest ih =>
    have h1 := require_length relocate st i
    have h2 := ih (evmccrt_memory_require relocate st i).2
    simp only [requireAll, List.foldl_cons] at h2 ⊢
    omega

/-- C7 as stated fails for `mem_resize`: on a 2-byte buffer `mem_resize` with
size 1 calls `resize(1)` and leaves 1 byte, not `max 2 1 = 2`. -/
theorem mem_resize_smaller_size_shrinks :
    (mem_resize keepBase { memory := [1, 2], base := 0, memData := 0, memSize := 2 } 1).2.memory
      = [1] ∧
    (mem_resize keepBase
        { memory := [1, 2], base := 0, memData := 0, memSize := 2 } 1).2.memory.length
      ≠ max 2 1 := by
  decide

/-- C7 amended: `evmccrt_memory_require` leaves the size at
`max previous requiredSize`, so over any sequence of `require` calls the size
never decreases; `mem_resize` with a size `n` (low 64 bits of the size word)
not below the previous size leaves the size at `max previous n = n`. -/
theorem grow_primitives_size (relocate : Relocate) (st : MemState) :
    (∀ i : Nat, (evmccrt_memory_require relocate st i).2.memory.length
        = max st.memory.length (requiredSize i)) ∧
    (∀ is : List Nat, st.memory.length ≤ (requireAll relocate st is).memory.length) ∧
    (∀ sizeWord : Nat, st.memory.length ≤ sizeWord % 2 ^ 64 →
      (mem_resize relocate st sizeWord).2.memory.length
        = max st.memory.length (sizeWord % 2 ^ 64)) := by
  refine ⟨require_length relocate st, fun is => requireAll_length_ge relocate is st, ?_⟩
  intro sizeWord h
  rw [mem_resize_length]
  omega

/-- Witness for C7 amended: growing a 2-byte buffer to 5 bytes with
`mem_resize`. -/
theorem grow_primitives_size_witness :
    [1, 2].length ≤ 5 % 2 ^ 64 ∧
    (mem_resize keepBase
        { memory := [1, 2], base := 0, memData := 0, memSize := 5 } 5).2.memory.length
      = max [1, 2].length (5 % 2 ^ 64) :=
  ⟨by decide,
   (grow_primitives_size keepBase
      { memory := [1, 2], base := 0, memData := 0, memSize := 5 }).2.2 5 (by decide)⟩

/-- C8, the code at the failing input: from the mirrored empty state a load at
address 0 grows the vector to 32 bytes through `evmccrt_memory_require`, but
`mem.size` stays 0; when the allocator moves the storage, `mem.data` keeps the
old address as well.  The resize block of the store routine is the only place
that writes the two slots. -/
theorem loadWord_growth_leaves_cached_slots_stale :
    Mirrored { memory := [], base := 4096, memData := 4096, memSize := 0 } ∧
    (loadWord keepBase
      { memory := [], base := 4096, memData := 4096, memSize := 0 } 0).2.memory.length = 32 ∧
    (loadWord keepBase
      { memory := [], base := 4096, memData := 4096, memSize := 0 } 0).2.memSize = 0 ∧
    ¬ Mirrored (loadWord keepBase
      { memory := [], base := 4096, memData := 4096, memSize := 0 } 0).2 ∧
    (loadWord bumpBase
      { memory := [], base := 4096, memData := 4096, memSize := 0 } 0).2.base = 4112 ∧
    (loadWord bumpBase
      { memory := [], base := 4096, memData := 4096, memSize := 0 } 0).2.memData = 4096 := by
  decide

/-- C9: for every buffer state (a vector size is a `size_t`, below `2 ^ 64`)
`evmccrt_memory_size` returns the size in bytes divided by 32, rounding down,
and `getSize` zero-extends it to the same number as a 256-bit value. -/
theorem memory_size_is_floor_of_bytes_div_32 (st : MemState)
    (hsize : st.memory.length < 2 ^ 64) :
    evmccrt_memory_size st = st.memory.length / 32 ∧
    getSize st = st.memory.length / 32 ∧
    getSize st < 2 ^ 256 := by
  have h1 : st.memory.length / 32 % 2 ^ 64 = st.memory.length / 32 := by
    apply Nat.mod_eq_of_lt
    omega
  have h2 : evmccrt_memory_size st = st.memory.length / 32 := h1
  refine ⟨h2, ?_, ?_⟩
  · unfold getSize
    rw [h2, h1]
    apply Nat.mod_eq_of_lt
    omega
  · unfold getSize
    exact Nat.mod_lt _ (by positivity)

/-- Witness for C9: a buffer of 33 bytes reports 1 word, not 2. -/
theorem memory_size_is_floor_of_bytes_div_32_witness :
    (List.replicate 33 0).length < 2 ^ 64 ∧
    evmccrt_memory_size
      { memory := List.replicate 33 0, base := 0, memData := 0, memSize := 33 } = 1 ∧
    getSize { memory := List.replicate 33 0, base := 0, memData := 0, memSize := 33 } = 1 :=
  ⟨by decide,
   (memory_size_is_floor_of_bytes_div_32
      { memory := List.replicate 33 0, base := 0, memData := 0, memSize := 33 }
      (by decide)).1.trans (by decide),
   (memory_size_is_floor_of_bytes_div_32
      { memory := List.replicate 33 0, base := 0, memData := 0, memSize := 33 }
      (by decide)).2.1.trans (by decide)⟩

theorem resize_contents_of_growth {relocate : Relocate} {st st1 : MemState}
    (hop : (∃ i : Nat, st1 = (evmccrt_memory_require relocate st i).2) ∨
      (∃ sizeWord : Nat, st1 = (mem_resize relocate st sizeWord).2))
    (hgrow : st.memory.length < st1.memory.length) :
    st1.memory
      = st.memory ++ List.replicate (st1.memory.length - st.memory.length) 0 := by
  rcases hop with ⟨i, rfl⟩ | ⟨sizeWord, rfl⟩
  · unfold evmccrt_memory_require at hgrow ⊢
    split
    · rename_i h
      simp only [resizeMemory, vectorResize_length]
      exact vectorResize_of_le (Nat.le_of_lt h)
    · rename_i h
      rw [if_neg h] at hgrow
      exact absurd hgrow (Nat.lt_irrefl _)
  · rw [mem_resize_length] at hgrow ⊢
    simp only [mem_resize, resizeMemory]
    exact vectorResize_of_le (Nat.le_of_lt hgrow)

/-- C10: when `evmccrt_memory_require` or `mem_resize` takes the buffer from
size `m` to a larger size `n`, every byte at an offset in `[0, m)` is unchanged,
every byte at an offset in `[m, n)` is zero, and nothing else is appended. -/
theorem growth_zero_fills_and_keeps_old_bytes (relocate : Relocate) (st st1 : MemState)
    (hop : (∃ i : Nat, st1 = (evmccrt_memory_require relocate st i).2) ∨
      (∃ sizeWord : Nat, st1 = (mem_resize relocate st sizeWord).2))
    (hgrow : st.memory.length < st1.memory.length) :
    (∀ k : Nat, k < st.memory.length → st1.memory[k]? = st.memory[k]?) ∧
    (∀ k : Nat, st.memory.length ≤ k → k < st1.memory.length → st1.memory[k]? = some 0) ∧
    st1.memory
      = st.memory ++ List.replicate (st1.memory.length - st.memory.length) 0 := by
  have hc := resize_contents_of_growth hop hgrow
  refine ⟨?_, ?_, hc⟩
  · intro k hk
    rw [hc, List.getElem?_append_left hk]
  · intro k hk1 hk2
    rw [hc, List.getElem?_append_right hk1, List.getElem?_replicate]
    rw [if_pos (by omega)]

/-- Witness for C10: `evmccrt_memory_require(40)` on the 2-byte buffer `[7, 9]`
gives 64 bytes, the first two unchanged and byte 2 zero. -/
theorem growth_zero_fills_and_keeps_old_bytes_witness :
    ([7, 9] : List Nat).length
      < (evmccrt_memory_require keepBase
          { memory := [7, 9], base := 0, memData := 0, memSize := 2 } 40).2.memory.length ∧
    (evmccrt_memory_require keepBase
        { memory := [7, 9], base := 0, memData := 0, memSize := 2 } 40).2.memory[1]?
      = ([7, 9] : List Nat)[1]? ∧
    (evmccrt_memory_require keepBase
        { memory := [7, 9], base := 0, memData := 0, memSize := 2 } 40).2.memory[2]?
      = some 0 :=
  ⟨by decide,
   (growth_zero_fills_and_keeps_old_bytes keepBase
      { memory := [7, 9], base := 0, memData := 0, memSize := 2 } _
      (Or.inl ⟨40, rfl⟩) (by decide)).1 1 (by decide),
   (growth_zero_fills_and_keeps_old_bytes keepBase
      { memory := [7, 9], base := 0, memData := 0, memSize := 2 } _
      (Or.inl ⟨40, rfl⟩) (by decide)).2.1 2 (by decide) (by decide)⟩

/-! ## Control flow of the store routine -/

theorem storeStep_at_ret (relocate : Relocate) (vt : ValueType) (index value : Nat)
    (c : StoreConfig) (h : c.block = .ret) : storeStep relocate vt index value c = c := by
  unfold storeStep
  rw [h]

theorem runStore_at_ret (relocate : Relocate) (vt : ValueType) (index value : Nat)
    (n : Nat) (c : StoreConfig) (h : c.block = .ret) :
    runStore relocate vt index value n c = c := by
  induction n with
  | zero => rfl
  | succ k ih => rw [runStore, storeStep_at_ret relocate vt index value c h, ih]

theorem checkBB_cases (vt : ValueType) (st : MemState) (index : Nat) :
    checkBB vt st index = .resize ∨ checkBB vt st index = .store := by
  unfold checkBB
  split
  · exact Or.inl rfl
  · exact Or.inr rfl

theorem runStore_result (relocate : Relocate) (vt : ValueType) (st : MemState)
    (index value n : Nat) :
    runStore relocate vt index value (n + 3) (StoreConfig.entry st)
      = { block := .ret,
          st := createStoreFunc relocate vt st index value,
          trace := if checkBB vt st index = .resize then [.check, .resize, .store]
                   else [.check, .store],
          wrote := [(stateAtStore relocate vt st index).memData] } := by
  have hrun : runStore relocate vt index value (n + 3) (StoreConfig.entry st)
      = runStore relocate vt index value n
          (storeStep relocate vt index value
            (storeStep relocate vt index value
              (storeStep relocate vt index value (StoreConfig.entry st)))) := rfl
  rw [hrun]
  rcases checkBB_cases vt st index with h | h
  · have h3 : storeStep relocate vt index value
          (storeStep relocate vt index value
            (storeStep relocate vt index value (StoreConfig.entry st)))
        = { block := .ret,
            st := createStoreFunc relocate vt st index value,
            trace := [.check, .resize, .store],
            wrote := [(stateAtStore relocate vt st index).memData] } := by
      simp [storeStep, StoreConfig.entry, h, createStoreFunc, stateAtStore]
    rw [h3, runStore_at_ret _ _ _ _ _ _ rfl, if_pos h]
  · have h3 : storeStep relocate vt index value
          (storeStep relocate vt index value
            (storeStep relocate vt index value (StoreConfig.entry st)))
        = { block := .ret,
            st := createStoreFunc relocate vt st index value,
            trace := [.check, .store],
            wrote := [(stateAtStore relocate vt st index).memData] } := by
      simp [storeStep, StoreConfig.entry, h, createStoreFunc, stateAtStore]
    rw [h3, runStore_at_ret _ _ _ _ _ _ rfl, if_neg (by rw [h]; decide)]

theorem stateAtStore_memData (relocate : Relocate) (vt : ValueType) (st : MemState)
    (index : Nat) :
    (checkBB vt st index = .resize ∧
      (stateAtStore relocate vt st index).memData
        = (mem_resize relocate { st with memSize := sizeRequired vt index }
            (sizeRequired vt index)).1 ∧
      (stateAtStore relocate vt st index).memData
        = (stateAtStore relocate vt st index).base) ∨
    (checkBB vt st index = .store ∧
      stateAtStore relocate vt st index = st) := by
  rcases checkBB_cases vt st index with h | h
  · left
    refine ⟨h, ?_, ?_⟩ <;> simp [stateAtStore, h, resizeBB, mem_resize]
  · right
    exact ⟨h, by simp [stateAtStore, h]⟩

/-- C11: the control-flow graph of the store routine has no cycle (every edge
goes to a block of lower rank) and every step of an execution follows an edge
or stays at the return.  For both value types, every state and every
`(index, value)`, three or more steps from the entry end at the return with the
result of `createStoreFunc`; the blocks run are `check, store` or
`check, resize, store`, so the write in `store` is executed exactly once and
never before `check`.  The write goes through `data + index` with `data` the
value of `mem.data` on entry to `store`: when `resize` ran, that is the pointer
returned by `mem_resize`, the vector's current base; otherwise the state is
the one the routine was called in. -/
theorem store_routine_control_flow (relocate : Relocate) (vt : ValueType) (st : MemState)
    (index value n : Nat) :
    (∀ b b1 : StoreBlock, b1 ∈ b.successors → b1.rank < b.rank) ∧
    (∀ c : StoreConfig,
      (storeStep relocate vt index value c).block = c.block ∨
      (storeStep relocate vt index value c).block ∈ c.block.successors) ∧
    (StoreConfig.entry st).block = .check ∧
    (runStore relocate vt index value (n + 3) (StoreConfig.entry st)).block = .ret ∧
    (runStore relocate vt index value (n + 3) (StoreConfig.entry st)).st
      = createStoreFunc relocate vt st index value ∧
    ((runStore relocate vt index value (n + 3) (StoreConfig.entry st)).trace
        = [.check, .store] ∨
      (runStore relocate vt index value (n + 3) (StoreConfig.entry st)).trace
        = [.check, .resize, .store]) ∧
    (runStore relocate vt index value (n + 3) (StoreConfig.entry st)).trace.count .store
      = 1 ∧
    (runStore relocate vt index value (n + 3) (StoreConfig.entry st)).wrote
      = [(stateAtStore relocate vt st index).memData] ∧
    createStoreFunc relocate vt st index value
      = writeBytes (stateAtStore relocate vt st index)
          (((stateAtStore relocate vt st index).memData + index % 2 ^ 64) % 2 ^ 64)
          (vt.encode value) ∧
    ((checkBB vt st index = .resize ∧
        (stateAtStore relocate vt st index).memData
          = (mem_resize relocate { st with memSize := sizeRequired vt index }
              (sizeRequired vt index)).1 ∧
        (stateAtStore relocate vt st index).memData
          = (stateAtStore relocate vt st index).base) ∨
      (checkBB vt st index = .store ∧ stateAtStore relocate vt st index = st)) := by
  rw [runStore_result]
  refine ⟨?_, ?_, rfl, rfl, rfl, ?_, ?_, rfl, rfl, stateAtStore_memData relocate vt st index⟩
  · intro b b1 h
    cases b <;> cases b1 <;> simp [StoreBlock.successors, StoreBlock.rank] at h ⊢
  · intro c
    rcases c with ⟨blk, s, tr, wr⟩
    cases blk <;> cases s <;> simp [storeStep, StoreBlock.successors]
    exact Or.inr (checkBB_cases vt _ index)
  · rcases checkBB_cases vt st index with h | h
    · right; simp [h]
    · left; simp [h]
  · rcases checkBB_cases vt st index with h | h <;> simp [h]

/-! ## `evmccrt_memory_dump` -/

theorem dumpReads_append (xs ys : List DumpEvent) :
    dumpReads (xs ++ ys) = dumpReads xs ++ dumpReads ys := by
  simp [dumpReads, List.filterMap_append]

theorem dumpRows_append (xs ys : List DumpEvent) :
    dumpRows (xs ++ ys) = dumpRows xs ++ dumpRows ys := by
  simp [dumpRows, List.filterMap_append]

theorem dumpReads_rowPart (c : Prop) [Decidable c] (i : Nat) :
    dumpReads (if c then [DumpEvent.row i] else []) = [] := by
  split <;> rfl

theorem dumpRows_rowPart (c : Prop) [Decidable c] (i : Nat) :
    dumpRows (if c then [DumpEvent.row i] else []) = if c then [i] else [] := by
  split <;> rfl

theorem dumpLoop_step_some {memory : List Nat} {b e i v : Nat} (hi : i < e)
    (hv : memory[i]? = some v) :
    dumpLoop memory b e i
      = (if (i - b) % 16 = 0 then [DumpEvent.row i] else [])
          ++ DumpEvent.byte i (some v) :: dumpLoop memory b e (i + 1) := by
  rw [dumpLoop, if_pos hi, hv]

theorem dumpLoop_step_none {memory : List Nat} {b e i : Nat} (hi : i < e)
    (hv : memory[i]? = none) :
    dumpLoop memory b e i
      = (if (i - b) % 16 = 0 then [DumpEvent.row i] else [])
          ++ [DumpEvent.byte i none] := by
  rw [dumpLoop, if_pos hi, hv]

theorem dumpLoop_done {memory : List Nat} {b e i : Nat} (hi : ¬ i < e) :
    dumpLoop memory b e i = [DumpEvent.endl] := by
  rw [dumpLoop, if_neg hi]

theorem dumpReads_dumpLoop (memory : List Nat) (b e : Nat) :
    ∀ (k i : Nat), e - i = k →
      dumpReads (dumpLoop memory b e i)
        = List.range' i (min e (max i memory.length + 1) - i) := by
  intro k
  induction k with
  | zero =>
    intro i h
    rw [dumpLoop_done (by omega)]
    have hc : min e (max i memory.length + 1) - i = 0 := by omega
    rw [hc]
    rfl
  | succ k ih =>
    intro i h
    cases hv : memory[i]? with
    | none =>
      have hlen : memory.length ≤ i := List.getElem?_eq_none_iff.mp hv
      rw [dumpLoop_step_none (by omega) hv, dumpReads_append, dumpReads_rowPart]
      have hc : min e (max i memory.length + 1) - i = 1 := by omega
      rw [hc]
      rfl
    | some v =>
      have hlen : i < memory.length := by
        by_contra hcon
        rw [List.getElem?_eq_none_iff.mpr (by omega)] at hv
        exact absurd hv (by simp)
      rw [dumpLoop_step_some (by omega) hv, dumpReads_append, dumpReads_rowPart]
      have hc : min e (max i memory.length + 1) - i
          = (min e (max (i + 1) memory.length + 1) - (i + 1)) + 1 := by omega
      rw [hc, List.range'_succ, ← ih (i + 1) (by omega)]
      rfl

theorem dumpRows_dumpLoop (memory : List Nat) (b e : Nat) :
    ∀ (k i : Nat), e - i = k →
      dumpRows (dumpLoop memory b e i)
        = (List.range' i (min e (max i memory.length + 1) - i)).filter
            (fun j => decide ((j - b) % 16 = 0)) := by
  intro k
  induction k with
  | zero =>
    intro i h
    rw [dumpLoop_done (by omega)]
    have hc : min e (max i memory.length + 1) - i = 0 := by omega
    rw [hc]
    rfl
  | succ k ih =>
    intro i h
    cases hv : memory[i]? with
    | none =>
      have hlen : memory.length ≤ i := List.getElem?_eq_none_iff.mp hv
      rw [dumpLoop_step_none (by omega) hv, dumpRows_append, dumpRows_rowPart]
      have hc : min e (max i memory.length + 1) - i = 1 := by omega
      rw [hc]
      by_cases hrow : (i - b) % 16 = 0
      · rw [if_pos hrow]
        show [i] ++ [] = List.filter _ [i]
        rw [List.filter_cons_of_pos (by simpa using hrow)]
        rfl
      · rw [if_neg hrow]
        show [] ++ [] = List.filter _ [i]
        rw [List.filter_cons_of_neg (by simpa using hrow)]
        rfl
    | some v =>
      have hlen : i < memory.length := by
        by_contra hcon
        rw [List.getElem?_eq_none_iff.mpr (by omega)] at hv
        exact absurd hv (by simp)
      rw [dumpLoop_step_some (by omega) hv, dumpRows_append, dumpRows_rowPart]
      have hc : min e (max i memory.length + 1) - i
          = (min e (max (i + 1) memory.length + 1) - (i + 1)) + 1 := by omega
      have hrest : dumpRows (DumpEvent.byte i (some v) :: dumpLoop memory b e (i + 1))
          = (List.range' (i + 1) (min e (max (i + 1) memory.length + 1) - (i + 1))).filter
              (fun j => decide ((j - b) % 16 = 0)) := by
        rw [← ih (i + 1) (by omega)]
        rfl
      rw [hc, List.range'_succ, hrest]
      by_cases hrow : (i - b) % 16 = 0
      · rw [if_pos hrow, List.filter_cons_of_pos (by simpa using hrow)]
        rfl
      · rw [if_neg hrow, List.filter_cons_of_neg (by simpa using hrow)]
        rfl

theorem dump_header_only (st : MemState) (b e : Nat) (h : dumpEnd st e ≤ b) :
    (evmccrt_memory_dump st b e).1
      = [DumpEvent.header (evmccrt_memory_size st) b (dumpEnd st e)] := by
  unfold evmccrt_memory_dump
  simp only
  rw [if_pos h]

theorem dump_with_rows (st : MemState) (b e : Nat) (h : ¬ dumpEnd st e ≤ b) :
    (evmccrt_memory_dump st b e).1
      = DumpEvent.header (evmccrt_memory_size st) b (dumpEnd st e)
          :: dumpLoop st.memory (b / 16 * 16) (dumpEnd st e) (b / 16 * 16) := by
  unfold evmccrt_memory_dump
  simp only
  rw [if_neg h]

theorem dump_reads (st : MemState) (b e : Nat) :
    dumpReads (evmccrt_memory_dump st b e).1
      = if dumpEnd st e ≤ b then []
        else List.range' (b / 16 * 16)
          (min (dumpEnd st e) (max (b / 16 * 16) st.memory.length + 1) - b / 16 * 16) := by
  by_cases h : dumpEnd st e ≤ b
  · rw [dump_header_only st b e h, if_pos h]
    rfl
  · rw [dump_with_rows st b e h, if_neg h,
      ← dumpReads_dumpLoop st.memory (b / 16 * 16) (dumpEnd st e) _ (b / 16 * 16) rfl]
    rfl

theorem dump_rows (st : MemState) (b e : Nat) :
    dumpRows (evmccrt_memory_dump st b e).1
      = if dumpEnd st e ≤ b then []
        else (List.range' (b / 16 * 16)
          (min (dumpEnd st e) (max (b / 16 * 16) st.memory.length + 1) - b / 16 * 16)).filter
            (fun j => decide (j % 16 = 0)) := by
  by_cases h : dumpEnd st e ≤ b
  · rw [dump_header_only st b e h, if_pos h]
    rfl
  · rw [dump_with_rows st b e h, if_neg h]
    have hl := dumpRows_dumpLoop st.memory (b / 16 * 16) (dumpEnd st e) _ (b / 16 * 16) rfl
    have hc : ∀ (w x y : Nat) (l : List DumpEvent),
        dumpRows (DumpEvent.header w x y :: l) = dumpRows l := fun _ _ _ _ => rfl
    rw [hc, hl]
    apply List.filter_congr
    intro j hj
    rw [List.mem_range'_1] at hj
    have : (j - b / 16 * 16) % 16 = 0 ↔ j % 16 = 0 := by omega
    simp [this]

theorem dump_count_in_range {len b e1 : Nat} (hb : b < e1) (he : e1 ≤ len) :
    min e1 (max (b / 16 * 16) len + 1) - b / 16 * 16 = e1 - b / 16 * 16 := by
  omega

/-- C12 as stated fails when the end is past the buffer's size: on the empty
buffer `evmccrt_memory_dump(5, 20)` starts a row at offset 0 and indexes the
vector there, out of range; it does not read the offsets 0 to 19. -/
theorem dump_end_past_size_stops_at_first_read :
    ¬ dumpEnd (initialState 0 0) 20 ≤ 5 ∧
    (evmccrt_memory_dump (initialState 0 0) 5 20).1
      = [DumpEvent.header 0 5 20, DumpEvent.row 0, DumpEvent.byte 0 none] ∧
    dumpReads (evmccrt_memory_dump (initialState 0 0) 5 20).1 = [0] ∧
    dumpReads (evmccrt_memory_dump (initialState 0 0) 5 20).1
      ≠ List.range' (5 / 16 * 16) (dumpEnd (initialState 0 0) 20 - 5 / 16 * 16) := by
  have hev : (evmccrt_memory_dump (initialState 0 0) 5 20).1
      = [DumpEvent.header 0 5 20, DumpEvent.row 0, DumpEvent.byte 0 none] := by
    rw [dump_with_rows _ _ _ (by decide)]
    have hend : dumpEnd (initialState 0 0) 20 = 20 := rfl
    have hb : 5 / 16 * 16 = 0 := by decide
    rw [hend, hb, dumpLoop_step_none (by decide) (by rfl)]
    rfl
  rw [hev]
  refine ⟨by decide, rfl, rfl, ?_⟩
  decide

/-- C12 amended: `evmccrt_memory_dump` first replaces `_end` by the buffer's
size when it is 0.  If the resulting end is not above `_begin` it produces the
header only and reads nothing.  Otherwise, when the resulting end is not past
the buffer's size, it reads exactly the offsets from `_begin / 16 * 16` up to
but excluding the end, in increasing order, and starts a row at each of them
that is a multiple of 16.  On every buffer of at least 20 bytes `dump(5, 20)`
reads offsets 0 to 19, starting at 0; on every buffer `dump(10, 5)` reads
nothing. -/
theorem dump_reads_rounded_begin_to_end :
    (∀ (st : MemState) (b e : Nat),
      dumpEnd st e = (if e = 0 then st.memory.length else e) ∧
      (dumpEnd st e ≤ b →
        (evmccrt_memory_dump st b e).1
          = [DumpEvent.header (evmccrt_memory_size st) b (dumpEnd st e)] ∧
        dumpReads (evmccrt_memory_dump st b e).1 = []) ∧
      (b < dumpEnd st e → dumpEnd st e ≤ st.memory.length →
        dumpReads (evmccrt_memory_dump st b e).1
          = List.range' (b / 16 * 16) (dumpEnd st e - b / 16 * 16) ∧
        List.Pairwise (fun i j => i < j) (dumpReads (evmccrt_memory_dump st b e).1) ∧
        dumpRows (evmccrt_memory_dump st b e).1
          = (List.range' (b / 16 * 16) (dumpEnd st e - b / 16 * 16)).filter
              (fun j => decide (j % 16 = 0)))) ∧
    (∀ st : MemState, 20 ≤ st.memory.length →
      dumpReads (evmccrt_memory_dump st 5 20).1 = List.range 20 ∧
      (dumpReads (evmccrt_memory_dump st 5 20).1).head? = some 0) ∧
    (∀ st : MemState, dumpReads (evmccrt_memory_dump st 10 5).1 = []) := by
  have hgen : ∀ (st : MemState) (b e : Nat), b < dumpEnd st e →
      dumpEnd st e ≤ st.memory.length →
      dumpReads (evmccrt_memory_dump st b e).1
        = List.range' (b / 16 * 16) (dumpEnd st e - b / 16 * 16) := by
    intro st b e h hle
    rw [dump_reads, if_neg (by omega), dump_count_in_range h hle]
  refine ⟨?_, ?_, ?_⟩
  · intro st b e
    refine ⟨rfl, ?_, ?_⟩
    · intro h
      refine ⟨dump_header_only st b e h, ?_⟩
      rw [dump_reads, if_pos h]
    · intro h hle
      refine ⟨hgen st b e h hle, ?_, ?_⟩
      · rw [hgen st b e h hle]
        exact List.pairwise_lt_range' _ _
      · rw [dump_rows, if_neg (by omega), dump_count_in_range h hle]
  · intro st hlen
    have h20 : dumpEnd st 20 = 20 := rfl
    have hr : dumpReads (evmccrt_memory_dump st 5 20).1 = List.range 20 := by
      rw [hgen st 5 20 (by rw [h20]; decide) (by rw [h20]; exact hlen), h20]
      decide
    rw [hr]
    exact ⟨rfl, by decide⟩
  · intro st
    have h5 : dumpEnd st 5 = 5 := rfl
    rw [dump_reads, if_pos (by rw [h5]; decide)]

/-- Witness for C12 amended: on a 40-byte buffer `dump(5, 20)` reads offsets 0
to 19, and `dump(10, 5)` reads nothing. -/
theorem dump_reads_rounded_begin_to_end_witness :
    (5 < dumpEnd { memory := List.replicate 40 7, base := 0, memData := 0, memSize := 0 } 20 ∧
      dumpEnd { memory := List.replicate 40 7, base := 0, memData := 0, memSize := 0 } 20
        ≤ (List.replicate 40 7).length ∧
      dumpReads (evmccrt_memory_dump
          { memory := List.replicate 40 7, base := 0, memData := 0, memSize := 0 } 5 20).1
        = List.range' (5 / 16 * 16)
            (dumpEnd { memory := List.replicate 40 7, base := 0, memData := 0, memSize := 0 } 20
              - 5 / 16 * 16)) ∧
    (20 ≤ (List.replicate 40 7).length ∧
      dumpReads (evmccrt_memory_dump
          { memory := List.replicate 40 7, base := 0, memData := 0, memSize := 0 } 5 20).1
        = List.range 20) ∧
    (dumpEnd { memory := List.replicate 40 7, base := 0, memData := 0, memSize := 0 } 5 ≤ 10 ∧
      dumpReads (evmccrt_memory_dump
          { memory := List.replicate 40 7, base := 0, memData := 0, memSize := 0 } 10 5).1
        = []) :=
  ⟨⟨by decide, by decide,
    ((dump_reads_rounded_begin_to_end.1
        { memory := List.replicate 40 7, base := 0, memData := 0, memSize := 0 } 5 20).2.2
      (by decide) (by decide)).1⟩,
   ⟨by decide,
    (dump_reads_rounded_begin_to_end.2.1
        { memory := List.replicate 40 7, base := 0, memData := 0, memSize := 0 }
      (by decide)).1⟩,
   ⟨by decide,
    ((dump_reads_rounded_begin_to_end.1
        { memory := List.replicate 40 7, base := 0, memData := 0, memSize := 0 } 10 5).2.1
      (by decide)).2⟩⟩

/-- C13 as stated fails on a non-empty buffer: with one byte in the buffer
`evmccrt_memory_dump(0, 0)` takes the size 1 as its end, starts a row and reads
the byte at offset 0. -/
theorem dump_zero_zero_reads_nonempty_buffer :
    (evmccrt_memory_dump { memory := [7], base := 0, memData := 0, memSize := 1 } 0 0).1
      = [DumpEvent.header 0 0 1, DumpEvent.row 0, DumpEvent.byte 0 (some 7),
          DumpEvent.endl] ∧
    dumpReads
        (evmccrt_memory_dump { memory := [7], base := 0, memData := 0, memSize := 1 } 0 0).1
      = [0] := by
  have hev : (evmccrt_memory_dump
      { memory := [7], base := 0, memData := 0, memSize := 1 } 0 0).1
      = [DumpEvent.header 0 0 1, DumpEvent.row 0, DumpEvent.byte 0 (some 7),
          DumpEvent.endl] := by
    rw [dump_with_rows _ _ _ (by decide)]
    have hend : dumpEnd { memory := [7], base := 0, memData := 0, memSize := 1 } 0 = 1 := rfl
    have hb : 0 / 16 * 16 = 0 := by decide
    rw [hend, hb, dumpLoop_step_some (by decide) (by rfl : ([7] : List Nat)[0]? = some 7),
      dumpLoop_done (by decide)]
    rfl
  refine ⟨hev, ?_⟩
  rw [hev]
  rfl

/-- C13 amended: `evmccrt_memory_dump(0, 0)` reads the offsets
`0, 1, ..., size - 1` in order; it produces the header only, and reads no byte,
exactly when the buffer is empty. -/
theorem dump_zero_zero_reads_whole_buffer (st : MemState) :
    dumpReads (evmccrt_memory_dump st 0 0).1 = List.range st.memory.length ∧
    ((evmccrt_memory_dump st 0 0).1 = [DumpEvent.header (evmccrt_memory_size st) 0 0]
      ↔ st.memory = []) ∧
    (dumpReads (evmccrt_memory_dump st 0 0).1 = [] ↔ st.memory = []) := by
  have hend : dumpEnd st 0 = st.memory.length := rfl
  have hr : dumpReads (evmccrt_memory_dump st 0 0).1 = List.range st.memory.length := by
    rw [dump_reads, hend, List.range_eq_range']
    by_cases h : st.memory.length ≤ 0
    · rw [if_pos h, Nat.le_zero.mp h]
      rfl
    · rw [if_neg h]
      have hc : min st.memory.length (max (0 / 16 * 16) st.memory.length + 1) - 0 / 16 * 16
          = st.memory.length := by omega
      rw [hc]
  have hnil : List.range st.memory.length = [] ↔ st.memory = [] := by
    rw [List.range_eq_nil, List.length_eq_zero]
  refine ⟨hr, ?_, ?_⟩
  · constructor
    · intro h
      rw [h] at hr
      exact hnil.mp hr.symm
    · intro h
      have h0 : dumpEnd st 0 = 0 := by rw [hend, h]; rfl
      rw [dump_header_only st 0 0 (by omega), h0]
  · rw [hr]
    exact hnil

/-- C16 as stated fails: on the empty buffer `evmccrt_memory_dump(0, 1)` reads
offset 0, which is not below the size 0; the indexed access is out of range. -/
theorem dump_end_past_size_reads_out_of_range :
    (evmccrt_memory_dump (initialState 0 0) 0 1).1
      = [DumpEvent.header 0 0 1, DumpEvent.row 0, DumpEvent.byte 0 none] ∧
    dumpReads (evmccrt_memory_dump (initialState 0 0) 0 1).1 = [0] ∧
    ¬ ∀ i ∈ dumpReads (evmccrt_memory_dump (initialState 0 0) 0 1).1,
        i < (initialState 0 0).memory.length := by
  have hev : (evmccrt_memory_dump (initialState 0 0) 0 1).1
      = [DumpEvent.header 0 0 1, DumpEvent.row 0, DumpEvent.byte 0 none] := by
    rw [dump_with_rows _ _ _ (by decide)]
    have hend : dumpEnd (initialState 0 0) 1 = 1 := rfl
    have hb : 0 / 16 * 16 = 0 := by decide
    rw [hend, hb, dumpLoop_step_none (by decide) (by rfl)]
    rfl
  rw [hev]
  refine ⟨rfl, rfl, ?_⟩
  intro h
  exact absurd (h 0 (by decide)) (by decide)

/-- C16 amended: for every begin, every end and every buffer state the call
leaves the state, so the buffer's size and contents, unchanged; every offset it
reads is below the buffer's size exactly when `end <= size` or `end <= begin`
(in particular whenever `end = 0`). -/
theorem dump_reads_in_range_iff_end_within_size (st : MemState) (b e : Nat) :
    (evmccrt_memory_dump st b e).2 = st ∧
    ((∀ i ∈ dumpReads (evmccrt_memory_dump st b e).1, i < st.memory.length)
      ↔ (e ≤ st.memory.length ∨ e ≤ b)) := by
  constructor
  · unfold evmccrt_memory_dump
    simp only
    split <;> rfl
  · rw [dump_reads]
    have hend : (e = 0 ∧ dumpEnd st e = st.memory.length) ∨ (0 < e ∧ dumpEnd st e = e) := by
      unfold dumpEnd
      by_cases he : e = 0
      · exact Or.inl ⟨he, if_pos he⟩
      · exact Or.inr ⟨Nat.pos_of_ne_zero he, if_neg he⟩
    by_cases h : dumpEnd st e ≤ b
    · rw [if_pos h]
      constructor
      · intro _
        omega
      · intro _ i hi
        simp at hi
    · rw [if_neg h]
      constructor
      · intro hall
        by_cases hle : dumpEnd st e ≤ st.memory.length
        · omega
        · have hmem : max (b / 16 * 16) st.memory.length ∈ List.range' (b / 16 * 16)
              (min (dumpEnd st e) (max (b / 16 * 16) st.memory.length + 1)
                - b / 16 * 16) := by
            rw [List.mem_range'_1]
            omega
          have := hall _ hmem
          omega
      · intro hor i hi
        rw [List.mem_range'_1] at hi
        omega

/-! ## Repeated `evmccrt_memory_require` -/

theorem require_noop_of_le (relocate : Relocate) (st : MemState) (i : Nat)
    (h : requiredSize i ≤ st.memory.length) :
    evmccrt_memory_require relocate st i = (st.base, st) := by
  unfold evmccrt_memory_require
  rw [if_neg (by omega)]

theorem require_pair_eq (relocate : Relocate) (st : MemState) (i : Nat) :
    ((evmccrt_memory_require relocate st i).2.base, (evmccrt_memory_require relocate st i).2)
      = evmccrt_memory_require relocate st i := by
  rw [← require_returns_base relocate st i]

theorem requiredSize_mono {i j : Nat} (hji : j ≤ i) (hi : i < 2 ^ 64 - 32) :
    requiredSize j ≤ requiredSize i := by
  rw [requiredSize_exact hi, requiredSize_exact (by omega)]
  have : j / 32 ≤ i / 32 := Nat.div_le_div_right hji
  omega

theorem requiredSize_aligned (i : Nat) : requiredSize i % 32 = 0 ∧ requiredSize i < 2 ^ 64 := by
  unfold requiredSize
  omega

theorem requireAll_aligned (relocate : Relocate) (is : List Nat) (st : MemState)
    (h : st.memory.length % 32 = 0) :
    (requireAll relocate st is).memory.length % 32 = 0 := by
  induction is generalizing st with
  | nil => exact h
  | cons i rest ih =>
    have h1 := require_length relocate st i
    have h2 := (requiredSize_aligned i).1
    exact ih (evmccrt_memory_require relocate st i).2 (by omega)

theorem requireAll_length_lt (relocate : Relocate) (is : List Nat) (st : MemState)
    (h : st.memory.length < 2 ^ 64) :
    (requireAll relocate st is).memory.length < 2 ^ 64 := by
  induction is generalizing st with
  | nil => exact h
  | cons i rest ih =>
    have h1 := require_length relocate st i
    have h2 := (requiredSize_aligned i).2
    exact ih (evmccrt_memory_require relocate st i).2 (by omega)

/-- C14 as stated fails: for `i = 2 ^ 64 - 1` the required size wraps to 0, so
`require(i)` leaves the empty buffer empty, but `require(0)` after it grows the
buffer to 32 bytes, although `0 <= i`. -/
theorem require_after_wrapped_require_grows :
    (0 : Nat) ≤ 2 ^ 64 - 1 ∧ 2 ^ 64 - 1 < 2 ^ 64 ∧
    (evmccrt_memory_require keepBase (initialState 0 0) (2 ^ 64 - 1)).2.memory = [] ∧
    (evmccrt_memory_require keepBase
        (evmccrt_memory_require keepBase (initialState 0 0) (2 ^ 64 - 1)).2 0).2.memory.length
      = 32 ∧
    (evmccrt_memory_require keepBase
        (evmccrt_memory_require keepBase (initialState 0 0) (2 ^ 64 - 1)).2 0).2
      ≠ (evmccrt_memory_require keepBase (initialState 0 0) (2 ^ 64 - 1)).2 := by
  decide

/-- C14 amended: for every index `i`, if the buffer's size is at least the
computed required size the call returns the base and leaves the whole state
unchanged; calling `require(i)` twice gives the result of calling it once; and
for `i < 2 ^ 64 - 32`, `require(i)` followed by `require(j)` with `j <= i`
gives the result of `require(i)` alone. -/
theorem require_noop_and_idempotent (relocate : Relocate) (st : MemState) (i : Nat) :
    (requiredSize i ≤ st.memory.length →
      evmccrt_memory_require relocate st i = (st.base, st)) ∧
    evmccrt_memory_require relocate (evmccrt_memory_require relocate st i).2 i
      = evmccrt_memory_require relocate st i ∧
    (∀ j : Nat, j ≤ i → i < 2 ^ 64 - 32 →
      evmccrt_memory_require relocate (evmccrt_memory_require relocate st i).2 j
        = evmccrt_memory_require relocate st i) := by
  have hlen := require_length relocate st i
  refine ⟨require_noop_of_le relocate st i, ?_, ?_⟩
  · rw [require_noop_of_le relocate _ i (by omega)]
    exact require_pair_eq relocate st i
  · intro j hji hi
    have hmono := requiredSize_mono hji hi
    rw [require_noop_of_le relocate _ j (by omega)]
    exact require_pair_eq relocate st i

/-- Witness for C14 amended: on a 64-byte buffer `require(40)` changes nothing,
and on the empty buffer `require(40)` followed by `require(3)` gives the result
of `require(40)`. -/
theorem require_noop_and_idempotent_witness :
    (requiredSize 40
        ≤ (List.replicate 64 0).length ∧
      evmccrt_memory_require keepBase
          { memory := List.replicate 64 0, base := 0, memData := 0, memSize := 0 } 40
        = (0, { memory := List.replicate 64 0, base := 0, memData := 0, memSize := 0 })) ∧
    (3 ≤ 40 ∧ 40 < 2 ^ 64 - 32 ∧
      evmccrt_memory_require keepBase
          (evmccrt_memory_require keepBase (initialState 0 0) 40).2 3
        = evmccrt_memory_require keepBase (initialState 0 0) 40) :=
  ⟨⟨by decide,
    (require_noop_and_idempotent keepBase
      { memory := List.replicate 64 0, base := 0, memData := 0, memSize := 0 } 40).1
      (by decide)⟩,
   ⟨by decide, by decide,
    (require_noop_and_idempotent keepBase (initialState 0 0) 40).2.2 3
      (by decide) (by decide)⟩⟩

/-- C15: if the buffer's size is a multiple of 32 before
`evmccrt_memory_require(i)`, it is one afterwards, for every `i`; the same
holds after any run of `require` calls, and then (the size being a `size_t`)
`evmccrt_memory_size() * 32` equals the buffer's size in bytes. -/
theorem require_keeps_size_word_aligned (relocate : Relocate) (st : MemState)
    (i : Nat) (is : List Nat) (halign : st.memory.length % 32 = 0) :
    (evmccrt_memory_require relocate st i).2.memory.length % 32 = 0 ∧
    (requireAll relocate st is).memory.length % 32 = 0 ∧
    (st.memory.length < 2 ^ 64 →
      evmccrt_memory_size (requireAll relocate st is) * 32
        = (requireAll relocate st is).memory.length) := by
  have hall := requireAll_aligned relocate is st halign
  refine ⟨?_, hall, ?_⟩
  · have h1 := require_length relocate st i
    have h2 := (requiredSize_aligned i).1
    omega
  · intro hlt
    have hl := requireAll_length_lt relocate is st hlt
    unfold evmccrt_memory_size
    omega

/-- Witness for C15: from the empty buffer, `require(31)`, `require(100)`,
`require(40)` leave 128 bytes, reported as 4 words. -/
theorem require_keeps_size_word_aligned_witness :
    (initialState 0 0).memory.length % 32 = 0 ∧
    (initialState 0 0).memory.length < 2 ^ 64 ∧
    (requireAll keepBase (initialState 0 0) [31, 100, 40]).memory.length = 128 ∧
    evmccrt_memory_size (requireAll keepBase (initialState 0 0) [31, 100, 40]) * 32
      = (requireAll keepBase (initialState 0 0) [31, 100, 40]).memory.length :=
  ⟨by decide, by decide, by decide,
   (require_keeps_size_word_aligned keepBase (initialState 0 0) 31 [31, 100, 40]
      (by decide)).2.2 (by decide)⟩
end evmcc
